import Mathlib

/-!
Verification of the codebook-PDF answer extractor
(`src/survey_vars/extract_cdbk_pdf_answers.py`).

The Python script is shallowly embedded below: every function of the source
that the claims touch is translated into an executable Lean definition,
with Python exceptions modelled by `Except ExtractErr`.  Machine text is
modelled as `String` manipulated through explicit `List Char` helpers that
mirror the semantics of the Python `str` methods actually used
(`split`, `strip`, `replace`, `in`, `' '.join`).  Python `int`/`float`
conversions are modelled by exact parsers into `Int`/`Rat` (printed decimal
numerals are exact decimals; the script's `round(x, 2)` is modelled as
round-half-to-even on exact decimals).
-/

/-- Python `str.isspace`-style whitespace test used by `str.strip`. -/
def wsChar (c : Char) : Bool := c.isWhitespace

/-- Drop leading whitespace characters (one side of Python `str.strip`). -/
def dropWS : List Char → List Char
  | [] => []
  | c :: rest => if wsChar c then dropWS rest else c :: rest

/-- Python `str.strip()` on a character list. -/
def trimChars (l : List Char) : List Char :=
  (dropWS ((dropWS l).reverse)).reverse

/-- Python `str.strip()`. -/
def strTrim (s : String) : String := ⟨trimChars s.data⟩

/-- Python `str.split(sep)` for a single-character separator:
`"".split(c) = [""]`, and separators delimit (possibly empty) pieces. -/
def splitChar (sep : Char) : List Char → List (List Char)
  | [] => [[]]
  | c :: rest =>
    match splitChar sep rest with
    | [] => [[c]]
    | p :: ps => if c = sep then [] :: p :: ps else (c :: p) :: ps

/-- `split_and_strip` from the source: split on newlines and strip each piece. -/
def splitAndStrip (s : String) : List String :=
  (splitChar '\n' s.data).map (fun l => ⟨trimChars l⟩)

/-- Does `pat` occur at the head of `l`? -/
def begWith : List Char → List Char → Bool
  | [], _ => true
  | _ :: _, [] => false
  | a :: as, b :: bs => a = b && begWith as bs

/-- Does `pat` occur anywhere inside `l`?  (Python `pat in s`.) -/
def occursIn (pat : List Char) : List Char → Bool
  | [] => begWith pat []
  | c :: rest => begWith pat (c :: rest) || occursIn pat rest

/-- Python substring containment `pat in s`. -/
def strContains (s pat : String) : Bool := occursIn pat.data s.data

/-- Python `s.replace(k, v)` for a single-character key `k`. -/
def replaceCharStr (k : Char) (v : List Char) : List Char → List Char
  | [] => []
  | c :: rest =>
    if c = k then v ++ replaceCharStr k v rest else c :: replaceCharStr k v rest

/-- `replace_characters` with `FAULTY_CHARACTER_MAPPER = {'ﬁ': 'fi'}`. -/
def repairChars (s : String) : String := ⟨replaceCharStr 'ﬁ' ['f', 'i'] s.data⟩

/-- `replace_characters` with mapper `{',': ''}` (thousands-separator removal). -/
def removeCommas (s : String) : String := ⟨replaceCharStr ',' [] s.data⟩

/-- Python `' '.join(l)`. -/
def joinSpace : List String → String
  | [] => ""
  | s :: rest =>
    match rest with
    | [] => s
    | _ :: _ => s ++ " " ++ joinSpace rest

/-- Accumulating decimal-digit reader; fails on a non-digit. -/
def digitsVal (acc : Nat) : List Char → Option Nat
  | [] => some acc
  | c :: rest =>
    if c.isDigit then digitsVal (acc * 10 + (c.toNat - 48)) rest else none

/-- Read a non-empty all-digit string. -/
def parseDigits (l : List Char) : Option Nat :=
  match l with
  | [] => none
  | _ :: _ => digitsVal 0 l

/-- Python `int(s)` on the numeral shapes the codebook produces
(optional sign, decimal digits, surrounding whitespace). -/
def parseIntStr (s : String) : Option Int :=
  match trimChars s.data with
  | '-' :: rest => (parseDigits rest).map (fun n => -(n : Int))
  | '+' :: rest => (parseDigits rest).map (fun n => (n : Int))
  | l => (parseDigits l).map (fun n => (n : Int))

/-- An exact (not necessarily reduced) rational `num / den` with positive
denominator, used to model Python floats carrying exact decimal values.
Kept as raw integers so every operation reduces in the kernel. -/
structure Dec where
  num : Int
  den : Nat
deriving DecidableEq

/-- Embed an integer. -/
def Dec.ofInt (n : Int) : Dec := ⟨n, 1⟩

/-- Exact addition. -/
def decAdd (a b : Dec) : Dec := ⟨a.num * b.den + b.num * a.den, a.den * b.den⟩

/-- Exact subtraction. -/
def decSub (a b : Dec) : Dec := ⟨a.num * b.den - b.num * a.den, a.den * b.den⟩

/-- Absolute value. -/
def decAbs (a : Dec) : Dec := ⟨|a.num|, a.den⟩

/-- Value comparison `a ≤ b` (cross-multiplied; denominators positive). -/
def decLeB (a b : Dec) : Bool := decide (a.num * (b.den : Int) ≤ b.num * (a.den : Int))

/-- Value equality (cross-multiplied; denominators positive). -/
def decEqB (a b : Dec) : Bool := decide (a.num * (b.den : Int) = b.num * (a.den : Int))

/-- Python `sum` over exact decimals (starts from 0, folds left). -/
def decSum (l : List Dec) : Dec := l.foldl decAdd (Dec.ofInt 0)

/-- Python `float(s)` on plain decimal numerals (optional sign,
integer part, optional fractional part), as an exact decimal. -/
def parseDecStr (s : String) : Option Dec :=
  let core : List Char → Option Dec := fun l =>
    match splitChar '.' l with
    | [ip] => (parseDigits ip).map (fun n => Dec.ofInt n)
    | [ip, fp] =>
      match ip, fp with
      | [], [] => none
      | [], _ :: _ => (parseDigits fp).map (fun f => ⟨(f : Int), 10 ^ fp.length⟩)
      | _ :: _, [] => (parseDigits ip).map (fun n => Dec.ofInt n)
      | _ :: _, _ :: _ =>
        match parseDigits ip, parseDigits fp with
        | some n, some f =>
          some ⟨(n : Int) * (10 ^ fp.length : Nat) + (f : Int), 10 ^ fp.length⟩
        | _, _ => none
    | _ => none
  match trimChars s.data with
  | '-' :: rest => (core rest).map (fun d => ⟨-d.num, d.den⟩)
  | '+' :: rest => core rest
  | l => core l

/-- Round-half-to-even of `n / d` (`d` positive) to an integer
(Python `round(x)` on exact values). -/
def rhe2 (n : Int) (d : Nat) : Int :=
  let f := Int.fdiv n (d : Int)
  let r := n - f * (d : Int)
  if 2 * r < (d : Int) then f
  else if 2 * r > (d : Int) then f + 1
  else if f % 2 = 0 then f else f + 1

/-- Python `round(x, 2)` modelled exactly on decimals. -/
def round2Dec (x : Dec) : Dec := ⟨rhe2 (x.num * 100) x.den, 100⟩

/-- `Element` dataclass: a positioned text fragment of the converted
document.  `right`/`bottom` are derived as in `__post_init__`. -/
structure Element where
  elemType : String
  left : Int
  top : Int
  width : Int
  height : Int
  text : String
deriving DecidableEq

/-- Derived right edge (`left + width`). -/
def Element.right (e : Element) : Int := e.left + e.width

/-- Derived bottom edge (`top + height`). -/
def Element.bottom (e : Element) : Int := e.top + e.height

/-- Tail-recursive worker for `group_elements`: the Python loop appends the
current unit on each divider and never flushes the final one. -/
def groupGo (units : List (List Element)) (current : List Element) :
    List Element → List (List Element)
  | [] => units.reverse
  | e :: rest =>
    if e.elemType = "divider" then groupGo (current.reverse :: units) [] rest
    else groupGo units (e :: current) rest

/-- `group_elements`: split the sorted element stream into per-variable
units at divider elements. -/
def group_elements (elements : List Element) : List (List Element) :=
  groupGo [] [] elements

/-- All maximal runs of non-divider elements, delimited by dividers,
including the final run (there are `#dividers + 1` runs).  This is the
reference segmentation used to characterise `group_elements`. -/
def splitRuns : List Element → List (List Element)
  | [] => [[]]
  | e :: rest =>
    match splitRuns rest with
    | [] => [[]]
    | r :: rs => if e.elemType = "divider" then [] :: r :: rs else (e :: r) :: rs

/-- Errors raised by the extractor.  `totalsMismatch` carries the payload of
the totals assertion message: computed sum, printed total and the column. -/
inductive ExtractErr where
  | totalsMismatch (computedSum printedTotal : Dec) (column : List String)
  | err (msg : String)
deriving DecidableEq

/-- `get_elem_by_text`: first element of the unit whose text contains the
anchor substring, else `None`. -/
def get_elem_by_text (unit : List Element) (t : String) : Option Element :=
  unit.find? (fun e => strContains e.text t)

/-- Candidate test of `get_variable_name`: strictly between the two anchors'
left edges and within the hardcoded 5px of the label's top. -/
def vnCandidate (la ra e : Element) : Bool :=
  decide (la.left < e.left ∧ e.left < ra.left ∧
          la.top - 5 < e.top ∧ e.top < la.top + 5)

/-- `get_variable_name`: triangulate between the "Variable Name:" and
"Length:" anchors; exactly one element may lie between them. -/
def get_variable_name (unit : List Element) : Except ExtractErr String :=
  match get_elem_by_text unit "Variable Name:",
        get_elem_by_text unit "Length:" with
  | some la, some ra =>
    match unit.filter (fun e => vnCandidate la ra e) with
    | [x] => .ok x.text
    | _ => .error (.err "AssertionError: found zero or several elements")
  | _, _ => .error (.err "AttributeError: NoneType")

/-- Shared body of `get_length` / `get_position`: the label element's own
text split on `:`, piece 1, stripped. -/
def parseAfterColon (e : Element) : Except ExtractErr String :=
  match (splitChar ':' e.text.data).get? 1 with
  | some piece => .ok ⟨trimChars piece⟩
  | none => .error (.err "IndexError")

/-- `get_length`: parsed from the "Length:" label element itself. -/
def get_length (unit : List Element) : Except ExtractErr String :=
  match get_elem_by_text unit "Length:" with
  | some e => parseAfterColon e
  | none => .error (.err "AttributeError: NoneType")

/-- `get_position`: parsed from the "Position:" label element itself. -/
def get_position (unit : List Element) : Except ExtractErr String :=
  match get_elem_by_text unit "Position:" with
  | some e => parseAfterColon e
  | none => .error (.err "AttributeError: NoneType")

/-- `get_question_thru_source`: texts in the fixed left band (178±5)
between the two anchors' tops (each offset by 10), joined, repaired,
newline-normalised. -/
def get_question_thru_source (unit : List Element) (topA bottomA : String) :
    Except ExtractErr String :=
  match get_elem_by_text unit topA, get_elem_by_text unit bottomA with
  | some te, some be =>
    let t := te.top - 10
    let b := be.top - 10
    let texts := (unit.filter (fun e =>
      decide (t < e.top ∧ e.top < b ∧ 173 < e.left ∧ e.left < 183))).map Element.text
    .ok (joinSpace (splitAndStrip (repairChars (joinSpace texts))))
  | _, _ => .error (.err "AttributeError: NoneType")

/-- Raw column entries of the answer/code columns: `PageBreak` markers,
`CodeElementBreak` markers, or a `split_and_strip` cell (list of lines). -/
inductive Raw where
  | pb : Raw
  | cb : Raw
  | lines : List String → Raw
deriving DecidableEq

/-- Python `len` of a raw column entry (markers have `__len__() == 1`). -/
def rawLen : Raw → Nat
  | .pb => 1
  | .cb => 1
  | .lines l => l.length

/-- Sum of the raw entry lengths (`sum(len(e) for e in ...)`). -/
def sumRawLens (l : List Raw) : Nat := (l.map rawLen).sum

/-- Flattened column entries: strings or the two marker kinds. -/
inductive Mark where
  | pb : Mark
  | cb : Mark
  | str : String → Mark
deriving DecidableEq

/-- `flatten`: lists are spliced, marker objects are kept as single items. -/
def flattenRaw (l : List Raw) : List Mark :=
  l.flatMap fun r =>
    match r with
    | .pb => [.pb]
    | .cb => [.cb]
    | .lines ls => ls.map Mark.str

/-- Worker for `insertCB`; `prev` is the previous raw entry of the input. -/
def insertCBGo (prev : Raw) : List Raw → List Raw
  | [] => []
  | e :: rest =>
    if prev = Raw.pb ∨ e = Raw.pb then e :: insertCBGo e rest
    else Raw.cb :: e :: insertCBGo e rest

/-- Insert a `CodeElementBreak` between consecutive code entries that are
not page breaks (lines 490-498 of the source). -/
def insertCB : List Raw → List Raw
  | [] => []
  | e :: rest => e :: insertCBGo e rest

/-- The merge walk over the zipped answer/code flattened lists
(lines 531-551): page breaks must pair up and are dropped; a code break
joins its answer fragment onto the previous answer entry.  The answer list
never contains `cb` marks, so the remaining cases are unreachable and
modelled as errors. -/
def mergeAC : List Mark → List Mark → List String → List String →
    Except ExtractErr (List String × List String)
  | [], _, ansAcc, codeAcc => .ok (ansAcc.reverse, codeAcc.reverse)
  | _ :: _, [], ansAcc, codeAcc => .ok (ansAcc.reverse, codeAcc.reverse)
  | a :: as, c :: cs, ansAcc, codeAcc =>
    if a = Mark.pb ∨ c = Mark.pb then
      if a = Mark.pb ∧ c = Mark.pb then mergeAC as cs ansAcc codeAcc
      else .error (.err "AssertionError: page break mismatch")
    else
      match a, c with
      | Mark.str sa, Mark.cb =>
        match ansAcc with
        | prev :: restAcc => mergeAC as cs ((prev ++ " " ++ sa) :: restAcc) codeAcc
        | [] => .error (.err "IndexError")
      | Mark.str sa, Mark.str sc => mergeAC as cs (sa :: ansAcc) (sc :: codeAcc)
      | _, _ => .error (.err "unreachable: cb in answer list")

/-- Split off the last element of a list (Python `list.pop()`, which
raises on an empty list). -/
def splitLast : List String → Option (List String × String)
  | [] => none
  | x :: rest =>
    match splitLast rest with
    | none => some ([], x)
    | some p => some (x :: p.1, p.2)

/-- `flatten([split_and_strip(e) for e in v])` (lines 595-599). -/
def flattenSplit (l : List String) : List String :=
  (l.map splitAndStrip).flatten

/-- The six answer-section outputs of `get_answer_fields`. -/
structure AnswerFields where
  answer_categories : List String
  code : List String
  frequency : List String
  weighted_frequency : List String
  percent : List String
  total_frequency : String
  total_weighted_frequency : String
  total_percent : String
deriving DecidableEq

/-- Totals validation (lines 633-647): per column, convert (int/int/float),
sum, and compare `round(abs(s - t), 2)` against the tolerance
(`0` / `1` / `0.2`).  For the two integer columns `round(·, 2)` is the
identity, so the rounded diff is `|s - t|` itself. -/
def checkTotals (f w p : List String) (tf tw tp : String) :
    Except ExtractErr Unit :=
  match f.mapM parseIntStr, parseIntStr tf with
  | some fs, some tfv =>
    if |fs.sum - tfv| ≤ (0 : Int) then
      match w.mapM parseIntStr, parseIntStr tw with
      | some ws, some twv =>
        if |ws.sum - twv| ≤ (1 : Int) then
          match p.mapM parseDecStr, parseDecStr tp with
          | some ps, some tpv =>
            if decLeB (round2Dec (decAbs (decSub (decSum ps) tpv))) ⟨1, 5⟩ then .ok ()
            else .error (.totalsMismatch (decSum ps) tpv p)
          | _, _ => .error (.err "ValueError: float conversion")
        else .error (.totalsMismatch (Dec.ofInt ws.sum) (Dec.ofInt twv) w)
      | _, _ => .error (.err "ValueError: int conversion")
    else .error (.totalsMismatch (Dec.ofInt fs.sum) (Dec.ofInt tfv) f)
  | _, _ => .error (.err "ValueError: int conversion")

/-- Left-alignment band of the answer-categories column (heading left ±10). -/
def ansAlign (h e : Element) : Bool :=
  decide (h.left - 10 < e.left ∧ e.left < h.left + 10)

/-- Right-alignment band (heading right ±10), used by the code,
weighted-frequency and percent columns. -/
def rightAlign (h e : Element) : Bool :=
  decide (h.right - 10 < e.right ∧ e.right < h.right + 10)

/-- Frequency band: between the combined heading's left edge and the
hardcoded right position 386 minus the 10px buffer. -/
def freqAlign (h e : Element) : Bool :=
  decide (h.left < e.left ∧ e.left < 386 - 10)

/-- Column collection for the answer/code columns (lines 455-485): skip
elements above the first heading, turn repeated heading occurrences into
page-break markers, and keep aligned cells as `split_and_strip` line lists. -/
def collectCol (hv : String) (top : Int) (align : Element → Bool) :
    Nat → List Element → List Raw
  | _, [] => []
  | hc, e :: rest =>
    if decide (e.top < top) then collectCol hv top align hc rest
    else if strContains e.text hv then
      if hc = 0 then collectCol hv top align 1 rest
      else Raw.pb :: collectCol hv top align (hc + 1) rest
    else if align e then
      Raw.lines (splitAndStrip e.text) :: collectCol hv top align hc rest
    else collectCol hv top align hc rest

/-- Column collection for the numeric columns (lines 568-594): skip
elements above the heading or containing the heading text, keep the raw
text of aligned cells. -/
def collectNum (hv : String) (top : Int) (align : Element → Bool) :
    List Element → List String
  | [] => []
  | e :: rest =>
    if decide (e.top < top) || strContains e.text hv then
      collectNum hv top align rest
    else if align e then e.text :: collectNum hv top align rest
    else collectNum hv top align rest

/-- `get_answer_fields` (lines 400-649): reconstruct the five answer-table
columns, validate alignment, pop the totals row, and validate the totals. -/
def get_answer_fields (unit : List Element) : Except ExtractErr AnswerFields :=
  match get_elem_by_text unit "Answer Categories",
        get_elem_by_text unit "Code" with
  | some hA, some hC =>
    let ansRaw := collectCol "Answer Categories" hA.top (ansAlign hA) 0 unit
    let codeRaw := insertCB (collectCol "Code" hC.top (rightAlign hC) 0 unit)
    if sumRawLens ansRaw = sumRawLens codeRaw then
      match mergeAC (flattenRaw ansRaw) (flattenRaw codeRaw) [] [] with
      | .error e => .error e
      | .ok (ansOut, codeOut) =>
        if ansOut.length = codeOut.length then
          match get_elem_by_text unit "Frequency",
                get_elem_by_text unit "Weighted Frequency",
                get_elem_by_text unit "%" with
          | some hF, some hW, some hP =>
            let freqL := flattenSplit (collectNum "Frequency" hF.top (freqAlign hF) unit)
            let wfL := flattenSplit (collectNum "Weighted Frequency" hW.top (rightAlign hW) unit)
            let percL := flattenSplit (collectNum "%" hP.top (rightAlign hP) unit)
            if freqL.length = wfL.length ∧ wfL.length = percL.length then
              match splitLast (freqL.map removeCommas),
                    splitLast (wfL.map removeCommas), splitLast percL with
              | some (fRows, tf), some (wRows, tw), some (pRows, tp) =>
                match checkTotals fRows wRows pRows tf tw tp with
                | .error e => .error e
                | .ok _ =>
                  .ok ⟨ansOut.map repairChars,
                       (flattenSplit codeOut).map repairChars,
                       fRows, wRows, pRows, tf, tw, tp⟩
              | _, _, _ => .error (.err "IndexError: pop from empty list")
            else .error (.err "AssertionError: column lengths differ")
          | _, _, _ => .error (.err "AttributeError: NoneType")
        else .error (.err "AssertionError: lengths differ after syncing")
    else .error (.err "AssertionError: category and code counts differ")
  | _, _ => .error (.err "AttributeError: NoneType")

/-- One extracted record (`questions[i]`): the eight always-present
metadata fields, plus `source` and the answer-table fields which the
script adds only for question variables. -/
structure VariableRecord where
  variable_name : String
  length : String
  position : String
  question_name : String
  concept : String
  question_text : String
  «universe» : String
  note : String
  source : Option String
  answers : Option AnswerFields
deriving DecidableEq

/-- Variables with no source / answer section, hardcoded in the script. -/
def NON_QUESTION_VARS : List String := ["PUMFID", "WTPP", "VERDATE"]

/-- Per-unit extraction (lines 655-673 of the main loop). -/
def extractUnit (unit : List Element) : Except ExtractErr VariableRecord := do
  let vn ← get_variable_name unit
  let len ← get_length unit
  let pos ← get_position unit
  let qn ← get_question_thru_source unit "Question Name:" "Concept:"
  let con ← get_question_thru_source unit "Concept:" "Question Text:"
  let qt ← get_question_thru_source unit "Question Text:" "Universe:"
  let uni ← get_question_thru_source unit "Universe:" "Note:"
  let nt ← get_question_thru_source unit "Note:" "Source:"
  if vn ∈ NON_QUESTION_VARS then
    return ⟨vn, len, pos, qn, con, qt, uni, nt, none, none⟩
  else
    let src ← get_question_thru_source unit "Source:" "Answer Categories"
    let af ← get_answer_fields unit
    return ⟨vn, len, pos, qn, con, qt, uni, nt, some src, some af⟩

/-- The main extraction loop: every unit must extract; the first error
aborts the whole run. -/
def runPipeline : List (List Element) → Except ExtractErr (List VariableRecord)
  | [] => .ok []
  | u :: rest =>
    match extractUnit u with
    | .error e => .error e
    | .ok r =>
      match runPipeline rest with
      | .error e => .error e
      | .ok rs => .ok (r :: rs)

/-- Content of the output JSON path: the script reaches `json.dump` only
after the whole loop finished, so the file exists only on a fully
successful run. -/
def finalOutput (us : List (List Element)) : Option (List VariableRecord) :=
  (runPipeline us).toOption

/-- Shorthand for a text element. -/
def mkT (l t w h : Int) (s : String) : Element := ⟨"text", l, t, w, h, s⟩

/-- A divider element (thin separator span, height 0). -/
def mkDiv (l t w : Int) : Element := ⟨"divider", l, t, w, 0, ""⟩

/-- A fully regular synthetic unit: all metadata anchors, a two-row answer
table in one block per column, and a matching total row. -/
def baseUnit : List Element := [
  mkT 36 100 80 10 "Variable Name:",
  mkT 120 100 40 10 "VARA",
  mkT 300 100 60 10 "Length: 2",
  mkT 450 100 80 10 "Position: 10",
  mkT 36 120 80 10 "Question Name:",
  mkT 178 120 60 10 "QNAME Q01",
  mkT 36 140 50 10 "Concept:",
  mkT 178 140 80 10 "Some concept",
  mkT 36 160 80 10 "Question Text:",
  mkT 178 160 80 10 "What is it",
  mkT 36 180 50 10 "Universe:",
  mkT 178 180 90 10 "All respondents",
  mkT 36 200 30 10 "Note:",
  mkT 178 200 40 10 "A note",
  mkT 36 220 40 10 "Source:",
  mkT 178 220 50 10 "A source",
  mkT 36 240 100 10 "Answer Categories",
  mkT 300 240 30 10 "Code",
  mkT 340 240 40 10 "Frequency",
  mkT 400 240 80 10 "Weighted Frequency",
  mkT 520 240 10 10 "%",
  mkT 36 260 60 30 "Yes\nNo",
  mkT 325 260 5 30 "1\n2",
  mkT 350 260 20 30 "10\n30",
  mkT 460 260 20 30 "100\n300",
  mkT 505 260 20 30 "50.0\n50.0",
  mkT 60 300 30 10 "Total",
  mkT 350 300 15 10 "40",
  mkT 460 300 20 10 "400",
  mkT 505 300 20 10 "100.0"]

/-- The answer fields extracted from `baseUnit`. -/
def baseAF : AnswerFields :=
  ⟨["Yes", "No"], ["1", "2"], ["10", "30"], ["100", "300"],
   ["50.0", "50.0"], "40", "400", "100.0"⟩

/-- Like `baseUnit`, but with a third row present only in the three numeric
columns (and totals adjusted to match): the script validates each group's
internal alignment but never compares the groups to each other. -/
def unit2 : List Element := [
  mkT 36 100 80 10 "Variable Name:",
  mkT 120 100 40 10 "VARB",
  mkT 300 100 60 10 "Length: 2",
  mkT 450 100 80 10 "Position: 10",
  mkT 36 120 80 10 "Question Name:",
  mkT 178 120 60 10 "QNAME Q02",
  mkT 36 140 50 10 "Concept:",
  mkT 178 140 80 10 "Some concept",
  mkT 36 160 80 10 "Question Text:",
  mkT 178 160 80 10 "What is it",
  mkT 36 180 50 10 "Universe:",
  mkT 178 180 90 10 "All respondents",
  mkT 36 200 30 10 "Note:",
  mkT 178 200 40 10 "A note",
  mkT 36 220 40 10 "Source:",
  mkT 178 220 50 10 "A source",
  mkT 36 240 100 10 "Answer Categories",
  mkT 300 240 30 10 "Code",
  mkT 340 240 40 10 "Frequency",
  mkT 400 240 80 10 "Weighted Frequency",
  mkT 520 240 10 10 "%",
  mkT 36 260 60 30 "Yes\nNo",
  mkT 325 260 5 30 "1\n2",
  mkT 350 260 20 30 "10\n30",
  mkT 460 260 20 30 "100\n300",
  mkT 505 260 20 30 "25.0\n25.0",
  mkT 350 290 15 10 "60",
  mkT 460 290 20 10 "600",
  mkT 505 290 20 10 "50.0",
  mkT 60 300 30 10 "Total",
  mkT 350 300 15 10 "100",
  mkT 460 300 20 10 "1000",
  mkT 505 300 20 10 "100.0"]

/-- Scenario A unit: the "Code" heading occurs twice (page split) and the
first category label spans two lines, desynchronising the code column. -/
def unit3 : List Element := [
  mkT 36 240 100 10 "Answer Categories",
  mkT 300 240 30 10 "Code",
  mkT 340 240 40 10 "Frequency",
  mkT 400 240 80 10 "Weighted Frequency",
  mkT 520 240 10 10 "%",
  mkT 36 260 60 40 "Alpha\nbeta\nGamma",
  mkT 325 260 5 10 "1",
  mkT 350 260 20 30 "10\n20",
  mkT 460 260 20 30 "100\n200",
  mkT 505 260 20 30 "25.0\n25.0",
  mkT 325 280 5 10 "2",
  mkT 36 400 100 10 "Answer Categories",
  mkT 300 400 30 10 "Code",
  mkT 36 420 40 10 "Delta",
  mkT 325 420 5 10 "3",
  mkT 350 420 20 10 "30",
  mkT 460 420 20 10 "300",
  mkT 505 420 20 10 "50.0",
  mkT 60 440 30 10 "Total",
  mkT 350 440 15 10 "60",
  mkT 460 440 20 10 "600",
  mkT 505 440 20 10 "100.0"]

/-- A unit with two stray elements sitting between the "Length:" and
"Position:" anchors on the label line. -/
def unit6 : List Element := [
  mkT 300 100 60 10 "Length: 4",
  mkT 320 100 10 10 "junk1",
  mkT 340 100 10 10 "junk2",
  mkT 450 100 80 10 "Position: 7"]

/-- Candidate band between the `unit6` anchors at the label's height. -/
def betweenLenPos (e : Element) : Bool :=
  decide (300 < e.left ∧ e.left < 450 ∧ 95 < e.top ∧ e.top < 105)

/-- Like `baseUnit` but with locale thousands separators in the frequency
and weighted-frequency cells and totals. -/
def unit7 : List Element := [
  mkT 36 100 80 10 "Variable Name:",
  mkT 120 100 40 10 "VARC",
  mkT 300 100 60 10 "Length: 2",
  mkT 450 100 80 10 "Position: 10",
  mkT 36 120 80 10 "Question Name:",
  mkT 178 120 60 10 "QNAME Q03",
  mkT 36 140 50 10 "Concept:",
  mkT 178 140 80 10 "Some concept",
  mkT 36 160 80 10 "Question Text:",
  mkT 178 160 80 10 "What is it",
  mkT 36 180 50 10 "Universe:",
  mkT 178 180 90 10 "All respondents",
  mkT 36 200 30 10 "Note:",
  mkT 178 200 40 10 "A note",
  mkT 36 220 40 10 "Source:",
  mkT 178 220 50 10 "A source",
  mkT 36 240 100 10 "Answer Categories",
  mkT 300 240 30 10 "Code",
  mkT 340 240 40 10 "Frequency",
  mkT 400 240 80 10 "Weighted Frequency",
  mkT 520 240 10 10 "%",
  mkT 36 260 60 30 "Yes\nNo",
  mkT 325 260 5 30 "1\n2",
  mkT 350 260 20 30 "75,412\n588",
  mkT 455 260 25 30 "754,120\n5,880",
  mkT 505 260 20 30 "99.2\n0.8",
  mkT 60 300 30 10 "Total",
  mkT 350 300 15 10 "76,000",
  mkT 455 300 25 10 "760,000",
  mkT 505 300 20 10 "100.0"]

/-- Like `baseUnit` but the variable-name value and the source text both
contain the faulty ligature character. -/
def unit8 : List Element := [
  mkT 36 100 80 10 "Variable Name:",
  mkT 120 100 40 10 "VAﬁRA",
  mkT 300 100 60 10 "Length: 2",
  mkT 450 100 80 10 "Position: 10",
  mkT 36 120 80 10 "Question Name:",
  mkT 178 120 60 10 "QNAME Q04",
  mkT 36 140 50 10 "Concept:",
  mkT 178 140 80 10 "Some concept",
  mkT 36 160 80 10 "Question Text:",
  mkT 178 160 80 10 "What is it",
  mkT 36 180 50 10 "Universe:",
  mkT 178 180 90 10 "All respondents",
  mkT 36 200 30 10 "Note:",
  mkT 178 200 40 10 "A note",
  mkT 36 220 40 10 "Source:",
  mkT 178 220 50 10 "A deﬁned source",
  mkT 36 240 100 10 "Answer Categories",
  mkT 300 240 30 10 "Code",
  mkT 340 240 40 10 "Frequency",
  mkT 400 240 80 10 "Weighted Frequency",
  mkT 520 240 10 10 "%",
  mkT 36 260 60 30 "Yes\nNo",
  mkT 325 260 5 30 "1\n2",
  mkT 350 260 20 30 "10\n30",
  mkT 460 260 20 30 "100\n300",
  mkT 505 260 20 30 "50.0\n50.0",
  mkT 60 300 30 10 "Total",
  mkT 350 300 15 10 "40",
  mkT 460 300 20 10 "400",
  mkT 505 300 20 10 "100.0"]

/-- The record extracted from `unit8`: the ligature survives in
`variable_name`, while the source text was repaired. -/
def unit8Record : VariableRecord :=
  ⟨"VAﬁRA", "2", "10", "QNAME Q04", "Some concept", "What is it",
   "All respondents", "A note", some "A defined source",
   some ⟨["Yes", "No"], ["1", "2"], ["10", "30"], ["100", "300"],
         ["50.0", "50.0"], "40", "400", "100.0"⟩⟩

/-- A unit for the non-question variable PUMFID: metadata anchors only,
no answer section beyond the "Source:" label. -/
def unit9 : List Element := [
  mkT 36 100 80 10 "Variable Name:",
  mkT 120 100 40 10 "PUMFID",
  mkT 300 100 60 10 "Length: 2",
  mkT 450 100 80 10 "Position: 10",
  mkT 36 120 80 10 "Question Name:",
  mkT 178 120 60 10 "QNAME Q05",
  mkT 36 140 50 10 "Concept:",
  mkT 178 140 80 10 "Some concept",
  mkT 36 160 80 10 "Question Text:",
  mkT 178 160 80 10 "What is it",
  mkT 36 180 50 10 "Universe:",
  mkT 178 180 90 10 "All respondents",
  mkT 36 200 30 10 "Note:",
  mkT 178 200 40 10 "A note",
  mkT 36 220 40 10 "Source:"]

/-- The record extracted from `unit9`: eight metadata fields, no source,
no answer fields. -/
def unit9Record : VariableRecord :=
  ⟨"PUMFID", "2", "10", "QNAME Q05", "Some concept", "What is it",
   "All respondents", "A note", none, none⟩

/-- A divider element for the segmentation counterexample. -/
def divElemC4 : Element := mkDiv 36 50 500

/-- A trailing text element for the segmentation counterexample. -/
def textElemC4 : Element := mkT 36 100 40 10 "A"

/-- `splitRuns` always produces at least one run. -/
theorem splitRuns_ne_nil (es : List Element) : splitRuns es ≠ [] := by
  cases es with
  | nil => simp [splitRuns]
  | cons e rest =>
    simp only [splitRuns]
    cases h : splitRuns rest with
    | nil => simp
    | cons r rs =>
      by_cases hd : e.elemType = "divider" <;> simp [hd]

/-- The loop invariant of the segmentation scan: accumulated complete units,
then the runs of the remaining input with the pending unit prepended to the
first run, with the final run discarded. -/
theorem groupGo_eq (es : List Element) : ∀ acc cur,
    groupGo acc cur es =
      acc.reverse ++ ((splitRuns es).modifyHead (fun r => cur.reverse ++ r)).dropLast := by
  induction es with
  | nil => intro acc cur; simp [groupGo, splitRuns]
  | cons e rest ih =>
    intro acc cur
    obtain ⟨r, rs, hr⟩ : ∃ r rs, splitRuns rest = r :: rs := by
      cases h : splitRuns rest with
      | nil => exact absurd h (splitRuns_ne_nil rest)
      | cons r rs => exact ⟨r, rs, rfl⟩
    by_cases hd : e.elemType = "divider"
    · simp only [groupGo, hd, if_true, ih, splitRuns, hr, List.modifyHead_cons,
        List.reverse_cons, List.nil_append, List.append_assoc]
      simp [List.dropLast_cons₂]
    · simp only [groupGo, hd, if_false, ih, splitRuns, hr, List.modifyHead_cons]
      simp

/-- C4 (amended): unit segmentation returns exactly the runs of non-divider
elements delimited by divider elements, in order, with the run after the
last divider always discarded (even when non-empty); empty runs, including
a leading empty run, are kept. -/
theorem c4_group_elements_spec (es : List Element) :
    group_elements es = (splitRuns es).dropLast := by
  have hid : List.modifyHead (fun r => ([] : List Element).reverse ++ r) (splitRuns es)
      = splitRuns es := by
    cases h : splitRuns es with
    | nil => simp
    | cons r rs => simp
  have h := groupGo_eq es [] []
  rw [hid] at h
  simpa [group_elements] using h

/-- C4 counterexample: on a divider followed by a text element, the scan
returns a single empty unit — the trailing text element belongs to no
output unit and the empty leading unit is not dropped, contradicting the
claimed segmentation. -/
theorem c4_trailing_drop_counterexample :
    group_elements [divElemC4, textElemC4] = [[]] ∧
    textElemC4.elemType = "text" ∧
    ([] : List Element) ∈ group_elements [divElemC4, textElemC4] := by
  refine ⟨rfl, rfl, by decide⟩

/-- C3: on the Scenario A unit (duplicated "Code" heading and a two-line
first category) extraction returns the two category fragments space-joined
as one entry and drops the duplicate heading from the code column, both
lists of length 3, the true row count; and the merge walk fails fatally
whenever a page-break marker heads only one of the two zipped lists. -/
theorem c3_page_split_merge :
    ((get_answer_fields unit3).toOption.map
        (fun af => (af.answer_categories, af.code)) =
      some (["Alpha beta", "Gamma", "Delta"], ["1", "2", "3"])) ∧
    (∀ (s : String) (as cs : List Mark) (accA accC : List String),
      mergeAC (Mark.pb :: as) (Mark.str s :: cs) accA accC =
        .error (.err "AssertionError: page break mismatch") ∧
      mergeAC (Mark.str s :: as) (Mark.pb :: cs) accA accC =
        .error (.err "AssertionError: page break mismatch") ∧
      mergeAC (Mark.pb :: as) (Mark.cb :: cs) accA accC =
        .error (.err "AssertionError: page break mismatch")) := by
  constructor
  · rfl
  · intro s as cs accA accC
    refine ⟨?_, ?_, ?_⟩ <;> simp [mergeAC]

/-- Replacing every occurrence of `k` by a `k`-free block leaves no
occurrence of `k`. -/
theorem replaceCharStr_count (k : Char) (v : List Char) (hv : k ∉ v) :
    ∀ l, (replaceCharStr k v l).count k = 0 := by
  intro l
  induction l with
  | nil => simp [replaceCharStr]
  | cons c rest ih =>
    by_cases hc : c = k
    · simp [replaceCharStr, hc, List.count_append, ih, List.count_eq_zero.mpr hv]
    · simp [replaceCharStr, hc, List.count_cons, ih]

/-- C7: thousands-separator commas are removed from every cell before any
numeric interpretation (no comma survives `removeCommas`), the cell text
"75,412" becomes the exact integer 75412, and on a unit whose frequency
column reads "75,412"/"588" with printed total "76,000" the record and the
validated totals use exactly the stripped integers. -/
theorem c7_comma_stripping :
    (∀ s : String, (removeCommas s).data.count ',' = 0) ∧
    removeCommas "75,412" = "75412" ∧
    parseIntStr (removeCommas "75,412") = some 75412 ∧
    ((get_answer_fields unit7).toOption.map
        (fun af => (af.frequency, af.total_frequency,
                    af.weighted_frequency, af.total_weighted_frequency)) =
      some (["75412", "588"], "76000", ["754120", "5880"], "760000")) := by
  refine ⟨?_, rfl, rfl, rfl⟩
  intro s
  exact replaceCharStr_count ',' [] (by simp) s.data

/-- A successful `find?` splits the list at the first satisfying element. -/
theorem find?_first {α : Type} (p : α → Bool) :
    ∀ (l : List α) (a : α), l.find? p = some a →
      ∃ l1 l2, l = l1 ++ a :: l2 ∧ ∀ x ∈ l1, p x = false := by
  intro l
  induction l with
  | nil => intro a h; simp [List.find?] at h
  | cons b bs ih =>
    intro a h
    by_cases hb : p b
    · simp only [List.find?, hb] at h
      refine ⟨[], bs, ?_, by simp⟩
      simpa using h
    · simp only [List.find?, hb] at h
      obtain ⟨l1, l2, rfl, hl1⟩ := ih a h
      refine ⟨b :: l1, l2, rfl, ?_⟩
      intro x hx
      rcases List.mem_cons.mp hx with rfl | hx
      · simpa using hb
      · exact hl1 x hx

/-- C10: anchor lookup returns the first element (in the unit's sorted
order) whose text contains the anchor as a substring — containment, not
exact match — and `None` exactly when no element's text contains it; a
missing "Length:" anchor then surfaces at the use site as the error of
dereferencing `None`, not as a dedicated lookup failure. -/
theorem c10_anchor_lookup :
    (∀ (u : List Element) (t : String),
      (get_elem_by_text u t = none ↔ ∀ e ∈ u, strContains e.text t = false)) ∧
    (∀ (u : List Element) (t : String) (e : Element),
      get_elem_by_text u t = some e →
        strContains e.text t = true ∧
        ∃ l1 l2, u = l1 ++ e :: l2 ∧ ∀ x ∈ l1, strContains x.text t = false) ∧
    (∀ u : List Element, get_elem_by_text u "Length:" = none →
      get_length u = .error (.err "AttributeError: NoneType")) := by
  refine ⟨?_, ?_, ?_⟩
  · intro u t
    rw [get_elem_by_text, List.find?_eq_none]
    constructor
    · intro h e he; simpa using h e he
    · intro h e he; simp [h e he]
  · intro u t e h
    rw [get_elem_by_text] at h
    have hp := List.find?_some h
    exact ⟨hp, find?_first _ u e h⟩
  · intro u h
    rw [get_length, h]

/-- C10 witness: on the empty unit no element contains the anchor, so
lookup returns `None`. -/
theorem c10_anchor_lookup_witness :
    get_elem_by_text ([] : List Element) "Code" = none :=
  (c10_anchor_lookup.1 [] "Code").mpr (by simp)

/-- A successful run extracted every unit successfully. -/
theorem runPipeline_ok_mem {us : List (List Element)}
    {recs : List VariableRecord} (h : runPipeline us = .ok recs) :
    ∀ u ∈ us, ∃ r, extractUnit u = .ok r := by
  induction us generalizing recs with
  | nil => intro u hu; simp at hu
  | cons v vs ih =>
    intro u hu
    rw [runPipeline] at h
    cases hv : extractUnit v with
    | error e => rw [hv] at h; exact absurd h (by simp)
    | ok r =>
      rw [hv] at h
      cases hrest : runPipeline vs with
      | error e => rw [hrest] at h; exact absurd h (by simp)
      | ok rs =>
        rcases List.mem_cons.mp hu with rfl | hu
        · exact ⟨r, hv⟩
        · exact ih hrest u hu

/-- A failing unit anywhere in the list makes the whole run fail. -/
theorem runPipeline_mem_error {us : List (List Element)}
    {u : List Element} {e : ExtractErr}
    (hu : u ∈ us) (he : extractUnit u = .error e) :
    ∃ e2, runPipeline us = .error e2 := by
  induction us with
  | nil => simp at hu
  | cons v vs ih =>
    rw [runPipeline]
    rcases List.mem_cons.mp hu with rfl | hu
    · exact ⟨e, by rw [he]⟩
    · cases hv : extractUnit v with
      | error e3 => exact ⟨e3, rfl⟩
      | ok r =>
        obtain ⟨e2, h2⟩ := ih hu
        exact ⟨e2, by rw [h2]⟩

/-- C5: nothing is written to the final output path unless every unit of
the document extracted and validated successfully — any fatal error in any
unit yields no output, and an existing output reflects a complete run. -/
theorem c5_no_partial_output (us : List (List Element)) :
    ((∃ u ∈ us, ∃ e, extractUnit u = .error e) → finalOutput us = none) ∧
    (∀ recs, finalOutput us = some recs →
      ∀ u ∈ us, ∃ r, extractUnit u = .ok r) := by
  constructor
  · rintro ⟨u, hu, e, he⟩
    obtain ⟨e2, h2⟩ := runPipeline_mem_error hu he
    simp [finalOutput, h2, Except.toOption]
  · intro recs h
    have : runPipeline us = .ok recs := by
      rw [finalOutput] at h
      cases h2 : runPipeline us with
      | error e => rw [h2] at h; exact absurd h (by simp [Except.toOption])
      | ok rs => rw [h2] at h; simp [Except.toOption] at h; rw [h]
    exact runPipeline_ok_mem this

/-- C5 witness: a run over one empty unit fails (the empty unit has no
anchors), so the output is absent. -/
theorem c5_no_partial_output_witness : finalOutput [[]] = none :=
  (c5_no_partial_output [[]]).1
    ⟨[], by simp, .err "AttributeError: NoneType", rfl⟩

/-- C6 (amended): only the variable-name field uses two-anchor
triangulation — it succeeds exactly when the between-anchors band contains
a single element (zero or several is an error) — while the length and
position fields are parsed from the label element's own text after the
colon and depend on nothing else in the unit: no between-anchors
collection, no ambiguity check. -/
theorem c6_inline_fields :
    (∀ (u : List Element) (la ra : Element) (s : String),
      get_elem_by_text u "Variable Name:" = some la →
      get_elem_by_text u "Length:" = some ra →
      (get_variable_name u = .ok s ↔
        (u.filter (fun e => vnCandidate la ra e)).map Element.text = [s])) ∧
    (∀ u₁ u₂ : List Element,
      get_elem_by_text u₁ "Length:" = get_elem_by_text u₂ "Length:" →
      get_length u₁ = get_length u₂) ∧
    (∀ u₁ u₂ : List Element,
      get_elem_by_text u₁ "Position:" = get_elem_by_text u₂ "Position:" →
      get_position u₁ = get_position u₂) := by
  refine ⟨?_, ?_, ?_⟩
  · intro u la ra s h1 h2
    rw [get_variable_name, h1, h2]
    dsimp only
    cases hf : u.filter (fun e => vnCandidate la ra e) with
    | nil => simp
    | cons x xs =>
      cases xs with
      | nil => simp [Except.ok.injEq, eq_comm]
      | cons y ys => simp
  · intro u₁ u₂ h
    rw [get_length, get_length, h]
  · intro u₁ u₂ h
    rw [get_position, get_position, h]

/-- C6 witness: on the regular unit the variable-name triangulation finds
exactly the one element "VARA". -/
theorem c6_inline_fields_witness : get_variable_name baseUnit = .ok "VARA" :=
  (c6_inline_fields.1 baseUnit (mkT 36 100 80 10 "Variable Name:")
    (mkT 300 100 60 10 "Length: 2") "VARA" rfl rfl).mpr (by decide)

/-- C6 counterexample: `unit6` has two elements strictly between the
"Length:" anchor and the next anchor at the label's height, yet
`get_length` succeeds (returning the text after the label's colon) instead
of raising an ambiguity error as the claim requires for every inline
field. -/
theorem c6_length_no_ambiguity_check :
    get_length unit6 = .ok "4" ∧
    (unit6.filter betweenLenPos).length = 2 ∧
    get_elem_by_text unit6 "Length:" = some (mkT 300 100 60 10 "Length: 4") ∧
    get_elem_by_text unit6 "Position:" = some (mkT 450 100 80 10 "Position: 7") := by
  refine ⟨rfl, by decide, rfl, rfl⟩

/-- C1 (amended): when every cell converts, totals validation succeeds iff
`sum(frequency)` equals the printed total exactly, the weighted-frequency
sum is within 1, and the percent comparison holds for
`round(|sum - total|, 2) <= 0.2` — i.e. the percent tolerance applies to
the difference rounded half-to-even to two decimals, not to the raw
difference; and every totals failure is a mismatch error carrying the
computed sum, the printed total and the offending column. -/
theorem c1_totals_check (f w p : List String) (tf tw tp : String)
    (fs ws : List Int) (ps : List Dec) (tfv twv : Int) (tpv : Dec)
    (hf : f.mapM parseIntStr = some fs) (hw : w.mapM parseIntStr = some ws)
    (hp : p.mapM parseDecStr = some ps)
    (htf : parseIntStr tf = some tfv) (htw : parseIntStr tw = some twv)
    (htp : parseDecStr tp = some tpv) :
    (checkTotals f w p tf tw tp = .ok () ↔
      (fs.sum = tfv ∧ |ws.sum - twv| ≤ 1 ∧
        decLeB (round2Dec (decAbs (decSub (decSum ps) tpv))) ⟨1, 5⟩ = true)) ∧
    (checkTotals f w p tf tw tp = .ok () ∨
      ∃ s t col, checkTotals f w p tf tw tp = .error (.totalsMismatch s t col)) := by
  unfold checkTotals
  rw [hf, htf, hw, htw, hp, htp]
  dsimp only
  by_cases h1 : |fs.sum - tfv| ≤ (0 : Int)
  · rw [if_pos h1]
    have e1 : fs.sum = tfv := by
      have := abs_le.mp h1; omega
    by_cases h2 : |ws.sum - twv| ≤ (1 : Int)
    · rw [if_pos h2]
      by_cases h3 : decLeB (round2Dec (decAbs (decSub (decSum ps) tpv))) ⟨1, 5⟩ = true
      · rw [if_pos h3]
        exact ⟨by simp [e1, h2, h3], Or.inl rfl⟩
      · rw [if_neg h3]
        exact ⟨by simp [h3], Or.inr ⟨_, _, _, rfl⟩⟩
    · rw [if_neg h2]
      exact ⟨by simp [h2], Or.inr ⟨_, _, _, rfl⟩⟩
  · rw [if_neg h1]
    refine ⟨?_, Or.inr ⟨_, _, _, rfl⟩⟩
    constructor
    · intro h; exact absurd h (by simp)
    · rintro ⟨e1, _, _⟩
      exact absurd (by simp [e1] : |fs.sum - tfv| ≤ (0 : Int)) h1

/-- C1 witness: the characterisation applied to a concrete passing table. -/
theorem c1_totals_check_witness :
    (checkTotals ["10", "30"] ["100", "300"] ["50.0", "50.0"] "40" "400" "100.0"
        = .ok () ↔
      (([10, 30] : List Int).sum = 40 ∧ |([100, 300] : List Int).sum - 400| ≤ 1 ∧
        decLeB (round2Dec (decAbs (decSub
          (decSum [⟨500, 10⟩, ⟨500, 10⟩]) ⟨1000, 10⟩))) ⟨1, 5⟩ = true)) ∧
    (checkTotals ["10", "30"] ["100", "300"] ["50.0", "50.0"] "40" "400" "100.0"
        = .ok () ∨
      ∃ s t col,
        checkTotals ["10", "30"] ["100", "300"] ["50.0", "50.0"] "40" "400" "100.0"
          = .error (.totalsMismatch s t col)) :=
  c1_totals_check ["10", "30"] ["100", "300"] ["50.0", "50.0"] "40" "400" "100.0"
    [10, 30] [100, 300] [⟨500, 10⟩, ⟨500, 10⟩] 40 400 ⟨1000, 10⟩
    rfl rfl rfl rfl rfl rfl

/-- C1 counterexample: a percent column summing to 100.204 against a
printed total of 100.0 — the raw difference 0.204 exceeds the claimed 0.2
tolerance, yet validation passes because the difference is first rounded
to two decimals. -/
theorem c1_rounding_counterexample :
    checkTotals ["40"] ["400"] ["100.204"] "40" "400" "100.0" = .ok () ∧
    (["100.204"].mapM parseDecStr).map decSum = some ⟨100204, 1000⟩ ∧
    parseDecStr "100.0" = some ⟨1000, 10⟩ ∧
    decLeB (decAbs (decSub ⟨100204, 1000⟩ ⟨1000, 10⟩)) ⟨1, 5⟩ = false := by
  exact ⟨rfl, rfl, rfl, rfl⟩

/-- Inversion of a successful `Except` bind. -/
theorem exceptBind_ok {α β : Type} {x : Except ExtractErr α}
    {g : α → Except ExtractErr β} {b : β}
    (h : (x >>= g) = .ok b) : ∃ a, x = .ok a ∧ g a = .ok b := by
  cases x with
  | ok a => exact ⟨a, rfl, h⟩
  | error e => exact Except.noConfusion h

/-- C9 (amended): a unit whose variable name is one of the hardcoded
non-question variables extracts without error into a record with the eight
metadata fields and with both the `source` field and all answer-table
fields absent — the script skips `source` for these variables as well, so
the record has eight fields, not nine. -/
theorem c9_non_question_fields (u : List Element) (r : VariableRecord)
    (h : extractUnit u = .ok r) :
    (r.source = none ↔ r.variable_name ∈ NON_QUESTION_VARS) ∧
    (r.answers = none ↔ r.variable_name ∈ NON_QUESTION_VARS) := by
  rw [extractUnit] at h
  obtain ⟨vn, hvn, h⟩ := exceptBind_ok h
  obtain ⟨len, hlen, h⟩ := exceptBind_ok h
  obtain ⟨pos, hpos, h⟩ := exceptBind_ok h
  obtain ⟨qn, hqn, h⟩ := exceptBind_ok h
  obtain ⟨con, hcon, h⟩ := exceptBind_ok h
  obtain ⟨qt, hqt, h⟩ := exceptBind_ok h
  obtain ⟨uni, huni, h⟩ := exceptBind_ok h
  obtain ⟨nt, hnt, h⟩ := exceptBind_ok h
  by_cases hm : vn ∈ NON_QUESTION_VARS
  · rw [if_pos hm] at h
    have hr : r = ⟨vn, len, pos, qn, con, qt, uni, nt, none, none⟩ := by
      simpa [pure, Except.pure] using h.symm
    subst hr
    simp [hm]
  · rw [if_neg hm] at h
    obtain ⟨src, hsrc, h⟩ := exceptBind_ok h
    obtain ⟨af, haf, h⟩ := exceptBind_ok h
    have hr : r = ⟨vn, len, pos, qn, con, qt, uni, nt, some src, some af⟩ := by
      simpa [pure, Except.pure] using h.symm
    subst hr
    simp [hm]

/-- C9 witness: the characterisation applied to the concrete PUMFID unit. -/
theorem c9_non_question_fields_witness :
    unit9Record.source = none ∧ unit9Record.answers = none := by
  have h := c9_non_question_fields unit9 unit9Record rfl
  exact ⟨h.1.mpr (by decide), h.2.mpr (by decide)⟩

/-- C9 counterexample: the PUMFID unit extracts without error, but the
resulting record's `source` field is absent — not all nine metadata fields
of the schema are present, contradicting the claim. -/
theorem c9_source_absent_counterexample :
    extractUnit unit9 = .ok unit9Record ∧
    unit9Record.variable_name = "PUMFID" ∧
    unit9Record.source = none ∧ unit9Record.answers = none :=
  ⟨rfl, rfl, rfl, rfl⟩

/-- Dropping leading whitespace only removes characters. -/
theorem mem_dropWS {x : Char} : ∀ {l : List Char}, x ∈ dropWS l → x ∈ l := by
  intro l
  induction l with
  | nil => intro h; simp [dropWS] at h
  | cons c rest ih =>
    intro h
    rw [dropWS] at h
    by_cases hc : wsChar c
    · rw [if_pos hc] at h
      exact List.mem_cons_of_mem c (ih h)
    · rwa [if_neg hc] at h

/-- Stripping only removes characters. -/
theorem mem_trimChars {x : Char} {l : List Char} (h : x ∈ trimChars l) :
    x ∈ l := by
  rw [trimChars] at h
  rw [List.mem_reverse] at h
  have h2 := mem_dropWS h
  rw [List.mem_reverse] at h2
  exact mem_dropWS h2

/-- A split always produces at least one piece. -/
theorem splitChar_ne_nil (sep : Char) : ∀ l, splitChar sep l ≠ [] := by
  intro l
  cases l with
  | nil => simp [splitChar]
  | cons c rest =>
    rw [splitChar]
    cases h : splitChar sep rest with
    | nil => simp
    | cons p ps => by_cases hc : c = sep <;> simp [hc]

/-- Characters of split pieces come from the input. -/
theorem splitChar_chars_sub (sep : Char) :
    ∀ (l : List Char) (p : List Char), p ∈ splitChar sep l →
      ∀ c ∈ p, c ∈ l := by
  intro l
  induction l with
  | nil => intro p hp c hc; simp [splitChar] at hp; simp [hp] at hc
  | cons d rest ih =>
    intro p hp c hc
    rw [splitChar] at hp
    cases h : splitChar sep rest with
    | nil => exact absurd h (splitChar_ne_nil sep rest)
    | cons p0 ps =>
      rw [h] at hp
      dsimp only at hp
      by_cases hd : d = sep
      · rw [if_pos hd] at hp
        rcases List.mem_cons.mp hp with rfl | hp
        · simp at hc
        · exact List.mem_cons_of_mem d (ih p (h ▸ hp) c hc)
      · rw [if_neg hd] at hp
        rcases List.mem_cons.mp hp with rfl | hp
        · rcases List.mem_cons.mp hc with rfl | hc
          · exact List.mem_cons_self c rest
          · exact List.mem_cons_of_mem d
              (ih p0 (h ▸ List.mem_cons_self p0 ps) c hc)
        · exact List.mem_cons_of_mem d
            (ih p (h ▸ List.mem_cons_of_mem p0 hp) c hc)

/-- The separator never occurs inside a split piece. -/
theorem splitChar_sep_not_mem (sep : Char) :
    ∀ (l : List Char) (p : List Char), p ∈ splitChar sep l → sep ∉ p := by
  intro l
  induction l with
  | nil => intro p hp; simp [splitChar] at hp; simp [hp]
  | cons d rest ih =>
    intro p hp
    rw [splitChar] at hp
    cases h : splitChar sep rest with
    | nil => exact absurd h (splitChar_ne_nil sep rest)
    | cons p0 ps =>
      rw [h] at hp
      dsimp only at hp
      by_cases hd : d = sep
      · rw [if_pos hd] at hp
        rcases List.mem_cons.mp hp with rfl | hp
        · simp
        · exact ih p (h ▸ hp)
      · rw [if_neg hd] at hp
        rcases List.mem_cons.mp hp with rfl | hp
        · intro hmem
          rcases List.mem_cons.mp hmem with hsep | hsep
          · exact hd hsep.symm
          · exact ih p0 (h ▸ List.mem_cons_self p0 ps) hsep
        · exact ih p (h ▸ List.mem_cons_of_mem p0 hp)

/-- Characters of `split_and_strip` pieces come from the input string. -/
theorem splitAndStrip_chars_sub {s : String} {t : String}
    (ht : t ∈ splitAndStrip s) : ∀ c ∈ t.data, c ∈ s.data := by
  rw [splitAndStrip] at ht
  obtain ⟨p, hp, rfl⟩ := List.mem_map.mp ht
  intro c hc
  exact splitChar_chars_sub '\n' s.data p hp c (mem_trimChars hc)

/-- No `split_and_strip` piece contains a newline. -/
theorem splitAndStrip_no_nl {s : String} {t : String}
    (ht : t ∈ splitAndStrip s) : '\n' ∉ t.data := by
  rw [splitAndStrip] at ht
  obtain ⟨p, hp, rfl⟩ := List.mem_map.mp ht
  intro hc
  exact splitChar_sep_not_mem '\n' s.data p hp (mem_trimChars hc)

/-- A separator-free input splits into the single piece itself. -/
theorem splitChar_no_sep (sep : Char) :
    ∀ l : List Char, sep ∉ l → splitChar sep l = [l] := by
  intro l
  induction l with
  | nil => intro _; rfl
  | cons c rest ih =>
    intro h
    have hc : c ≠ sep := fun he => h (he ▸ List.mem_cons_self c rest)
    have hrest : sep ∉ rest := fun hm => h (List.mem_cons_of_mem c hm)
    rw [splitChar, ih hrest]
    simp [fun he => hc he]

/-- `split_and_strip` of a newline-free string is the single stripped
string. -/
theorem splitAndStrip_singleton {s : String} (h : '\n' ∉ s.data) :
    splitAndStrip s = [⟨trimChars s.data⟩] := by
  rw [splitAndStrip, splitChar_no_sep '\n' s.data h]
  rfl

/-- Splitting newline-free cells does not change the column length. -/
theorem flattenSplit_len :
    ∀ l : List String, (∀ s ∈ l, '\n' ∉ s.data) →
      (flattenSplit l).length = l.length := by
  intro l
  induction l with
  | nil => intro _; rfl
  | cons s rest ih =>
    intro h
    have hs : '\n' ∉ s.data := h s (List.mem_cons_self s rest)
    have hr : ∀ x ∈ rest, '\n' ∉ x.data :=
      fun x hx => h x (List.mem_cons_of_mem s hx)
    simp only [flattenSplit, List.map_cons, List.flatten_cons,
      splitAndStrip_singleton hs] at *
    simp [ih hr]

/-- Every entry of a collected answer/code column is a page break or the
`split_and_strip` lines of some element's text. -/
theorem collectCol_mem (hv : String) (top : Int) (align : Element → Bool) :
    ∀ (hc : Nat) (u : List Element) (r : Raw), r ∈ collectCol hv top align hc u →
      r = Raw.pb ∨ ∃ e : Element, r = Raw.lines (splitAndStrip e.text) := by
  intro hc u
  induction u generalizing hc with
  | nil => intro r hr; simp [collectCol] at hr
  | cons e rest ih =>
    intro r hr
    rw [collectCol] at hr
    by_cases h1 : decide (e.top < top) = true
    · rw [if_pos h1] at hr; exact ih hc r hr
    · rw [if_neg h1] at hr
      by_cases h2 : strContains e.text hv = true
      · rw [if_pos h2] at hr
        by_cases h3 : hc = 0
        · rw [if_pos h3] at hr; exact ih 1 r hr
        · rw [if_neg h3] at hr
          rcases List.mem_cons.mp hr with rfl | hr
          · exact Or.inl rfl
          · exact ih (hc + 1) r hr
      · rw [if_neg h2] at hr
        by_cases h4 : align e = true
        · rw [if_pos h4] at hr
          rcases List.mem_cons.mp hr with rfl | hr
          · exact Or.inr ⟨e, rfl⟩
          · exact ih hc r hr
        · rw [if_neg h4] at hr; exact ih hc r hr

/-- The break-insertion pass only adds `cb` markers. -/
theorem insertCBGo_mem :
    ∀ (l : List Raw) (prev r : Raw), r ∈ insertCBGo prev l →
      r = Raw.cb ∨ r ∈ l := by
  intro l
  induction l with
  | nil => intro prev r hr; simp [insertCBGo] at hr
  | cons e rest ih =>
    intro prev r hr
    rw [insertCBGo] at hr
    by_cases h1 : prev = Raw.pb ∨ e = Raw.pb
    · rw [if_pos h1] at hr
      rcases List.mem_cons.mp hr with rfl | hr
      · exact Or.inr (List.mem_cons_self r rest)
      · rcases ih e r hr with h | h
        · exact Or.inl h
        · exact Or.inr (List.mem_cons_of_mem e h)
    · rw [if_neg h1] at hr
      rcases List.mem_cons.mp hr with rfl | hr
      · exact Or.inl rfl
      · rcases List.mem_cons.mp hr with rfl | hr
        · exact Or.inr (List.mem_cons_self r rest)
        · rcases ih e r hr with h | h
          · exact Or.inl h
          · exact Or.inr (List.mem_cons_of_mem e h)

/-- Membership after break insertion. -/
theorem insertCB_mem {l : List Raw} {r : Raw} (hr : r ∈ insertCB l) :
    r = Raw.cb ∨ r ∈ l := by
  cases l with
  | nil => simp [insertCB] at hr
  | cons e rest =>
    rw [insertCB] at hr
    rcases List.mem_cons.mp hr with rfl | hr
    · exact Or.inr (List.mem_cons_self r rest)
    · rcases insertCBGo_mem rest e r hr with h | h
      · exact Or.inl h
      · exact Or.inr (List.mem_cons_of_mem e h)

/-- Every string mark of a flattened column comes from a lines cell. -/
theorem flattenRaw_str_mem {l : List Raw} {s : String}
    (h : Mark.str s ∈ flattenRaw l) :
    ∃ ls, Raw.lines ls ∈ l ∧ s ∈ ls := by
  rw [flattenRaw] at h
  obtain ⟨r, hr, hm⟩ := List.mem_flatMap.mp h
  cases r with
  | pb => simp at hm
  | cb => simp at hm
  | lines ls =>
    refine ⟨ls, hr, ?_⟩
    obtain ⟨x, hx, he⟩ := List.mem_map.mp hm
    cases he
    exact hx

/-- The merge walk only moves newline-free code strings into the code
output: every code output string is newline-free when every string mark of
the code input and of the accumulator is. -/
theorem mergeAC_code_nl :
    ∀ (A C : List Mark) (accA accC aOut cOut : List String),
      (∀ s : String, Mark.str s ∈ C → '\n' ∉ s.data) →
      (∀ s ∈ accC, '\n' ∉ s.data) →
      mergeAC A C accA accC = .ok (aOut, cOut) →
      ∀ s ∈ cOut, '\n' ∉ s.data := by
  intro A
  induction A with
  | nil =>
    intro C accA accC aOut cOut hC hacc h s hs
    rw [mergeAC] at h
    cases h
    exact hacc s (List.mem_reverse.mp hs)
  | cons a as ih =>
    intro C accA accC aOut cOut hC hacc h s hs
    cases C with
    | nil =>
      rw [mergeAC] at h
      cases h
      exact hacc s (List.mem_reverse.mp hs)
    | cons c cs =>
      have hCs : ∀ s : String, Mark.str s ∈ cs → '\n' ∉ s.data :=
        fun x hx => hC x (List.mem_cons_of_mem c hx)
      cases a with
      | pb =>
        cases c with
        | pb =>
          have hstep : mergeAC (Mark.pb :: as) (Mark.pb :: cs) accA accC
              = mergeAC as cs accA accC := rfl
          rw [hstep] at h
          exact ih cs accA accC aOut cOut hCs hacc h s hs
        | cb => exact Except.noConfusion h
        | str sc => exact Except.noConfusion h
      | cb =>
        cases c with
        | pb => exact Except.noConfusion h
        | cb => exact Except.noConfusion h
        | str sc => exact Except.noConfusion h
      | str sa =>
        cases c with
        | pb => exact Except.noConfusion h
        | cb =>
          cases accA with
          | nil => exact Except.noConfusion h
          | cons prev restAcc =>
            have hstep : mergeAC (Mark.str sa :: as) (Mark.cb :: cs)
                (prev :: restAcc) accC
                = mergeAC as cs ((prev ++ " " ++ sa) :: restAcc) accC := rfl
            rw [hstep] at h
            exact ih cs ((prev ++ " " ++ sa) :: restAcc) accC aOut cOut hCs hacc h s hs
        | str sc =>
          have hstep : mergeAC (Mark.str sa :: as) (Mark.str sc :: cs) accA accC
              = mergeAC as cs (sa :: accA) (sc :: accC) := rfl
          rw [hstep] at h
          have hsc : '\n' ∉ sc.data := hC sc (List.mem_cons_self _ cs)
          have hacc2 : ∀ x ∈ sc :: accC, '\n' ∉ x.data := by
            intro x hx
            rcases List.mem_cons.mp hx with rfl | hx
            · exact hsc
            · exact hacc x hx
          exact ih cs (sa :: accA) (sc :: accC) aOut cOut hCs hacc2 h s hs

/-- `pop` splits off the last element and keeps all but one. -/
theorem splitLast_len :
    ∀ (l ys : List String) (t : String), splitLast l = some (ys, t) →
      l.length = ys.length + 1 := by
  intro l
  induction l with
  | nil => intro ys t h; simp [splitLast] at h
  | cons x rest ih =>
    intro ys t h
    rw [splitLast] at h
    cases h2 : splitLast rest with
    | none =>
      rw [h2] at h
      cases rest with
      | nil => cases h; rfl
      | cons y rest2 =>
        rw [splitLast] at h2
        cases h3 : splitLast rest2 with
        | none => rw [h3] at h2; exact Option.noConfusion h2
        | some p => rw [h3] at h2; exact Option.noConfusion h2
    | some p =>
      rw [h2] at h
      cases h
      simp [ih p.1 p.2 h2]

/-- Shape of a successful `get_answer_fields` run: the headings were all
found, the merge succeeded with equal category/code lengths, the three
numeric columns had equal lengths, each had a poppable total, the totals
check passed, and the output record is built from these pieces. -/
theorem gaf_ok_shape {unit : List Element} {af : AnswerFields}
    (h : get_answer_fields unit = .ok af) :
    ∃ (hA hC hF hW hP : Element)
      (ansOut codeOut fRows wRows pRows : List String) (tf tw tp : String),
      get_elem_by_text unit "Answer Categories" = some hA ∧
      get_elem_by_text unit "Code" = some hC ∧
      get_elem_by_text unit "Frequency" = some hF ∧
      get_elem_by_text unit "Weighted Frequency" = some hW ∧
      get_elem_by_text unit "%" = some hP ∧
      mergeAC (flattenRaw (collectCol "Answer Categories" hA.top (ansAlign hA) 0 unit))
        (flattenRaw (insertCB (collectCol "Code" hC.top (rightAlign hC) 0 unit))) [] []
        = .ok (ansOut, codeOut) ∧
      ansOut.length = codeOut.length ∧
      (flattenSplit (collectNum "Frequency" hF.top (freqAlign hF) unit)).length
        = (flattenSplit (collectNum "Weighted Frequency" hW.top (rightAlign hW) unit)).length ∧
      (flattenSplit (collectNum "Weighted Frequency" hW.top (rightAlign hW) unit)).length
        = (flattenSplit (collectNum "%" hP.top (rightAlign hP) unit)).length ∧
      splitLast ((flattenSplit (collectNum "Frequency" hF.top (freqAlign hF) unit)).map removeCommas)
        = some (fRows, tf) ∧
      splitLast ((flattenSplit (collectNum "Weighted Frequency" hW.top (rightAlign hW) unit)).map removeCommas)
        = some (wRows, tw) ∧
      splitLast (flattenSplit (collectNum "%" hP.top (rightAlign hP) unit))
        = some (pRows, tp) ∧
      af = ⟨ansOut.map repairChars, (flattenSplit codeOut).map repairChars,
            fRows, wRows, pRows, tf, tw, tp⟩ := by
  rw [get_answer_fields] at h
  cases hA : get_elem_by_text unit "Answer Categories" with
  | none => rw [hA] at h; exact Except.noConfusion h
  | some eA =>
  cases hC : get_elem_by_text unit "Code" with
  | none => rw [hA, hC] at h; exact Except.noConfusion h
  | some eC =>
  rw [hA, hC] at h
  dsimp only at h
  by_cases h1 : sumRawLens (collectCol "Answer Categories" eA.top (ansAlign eA) 0 unit)
      = sumRawLens (insertCB (collectCol "Code" eC.top (rightAlign eC) 0 unit))
  case neg => rw [if_neg h1] at h; exact Except.noConfusion h
  rw [if_pos h1] at h
  cases hm : mergeAC
      (flattenRaw (collectCol "Answer Categories" eA.top (ansAlign eA) 0 unit))
      (flattenRaw (insertCB (collectCol "Code" eC.top (rightAlign eC) 0 unit))) [] [] with
  | error e => rw [hm] at h; exact Except.noConfusion h
  | ok pr =>
  obtain ⟨ansOut, codeOut⟩ := pr
  rw [hm] at h
  dsimp only at h
  by_cases h2 : ansOut.length = codeOut.length
  case neg => rw [if_neg h2] at h; exact Except.noConfusion h
  rw [if_pos h2] at h
  cases hF : get_elem_by_text unit "Frequency" with
  | none => rw [hF] at h; exact Except.noConfusion h
  | some eF =>
  cases hW : get_elem_by_text unit "Weighted Frequency" with
  | none => rw [hF, hW] at h; exact Except.noConfusion h
  | some eW =>
  cases hP : get_elem_by_text unit "%" with
  | none => rw [hF, hW, hP] at h; exact Except.noConfusion h
  | some eP =>
  rw [hF, hW, hP] at h
  dsimp only at h
  by_cases h3 : (flattenSplit (collectNum "Frequency" eF.top (freqAlign eF) unit)).length
      = (flattenSplit (collectNum "Weighted Frequency" eW.top (rightAlign eW) unit)).length
      ∧ (flattenSplit (collectNum "Weighted Frequency" eW.top (rightAlign eW) unit)).length
      = (flattenSplit (collectNum "%" eP.top (rightAlign eP) unit)).length
  case neg => rw [if_neg h3] at h; exact Except.noConfusion h
  rw [if_pos h3] at h
  cases hsf : splitLast ((flattenSplit (collectNum "Frequency" eF.top (freqAlign eF) unit)).map removeCommas) with
  | none => rw [hsf] at h; exact Except.noConfusion h
  | some prf =>
  obtain ⟨fRows, tf⟩ := prf
  cases hsw : splitLast ((flattenSplit (collectNum "Weighted Frequency" eW.top (rightAlign eW) unit)).map removeCommas) with
  | none => rw [hsf, hsw] at h; exact Except.noConfusion h
  | some prw =>
  obtain ⟨wRows, tw⟩ := prw
  cases hsp : splitLast (flattenSplit (collectNum "%" eP.top (rightAlign eP) unit)) with
  | none => rw [hsf, hsw, hsp] at h; exact Except.noConfusion h
  | some prp =>
  obtain ⟨pRows, tp⟩ := prp
  rw [hsf, hsw, hsp] at h
  dsimp only at h
  cases hct : checkTotals fRows wRows pRows tf tw tp with
  | error e => rw [hct] at h; exact Except.noConfusion h
  | ok u0 =>
  rw [hct] at h
  dsimp only at h
  have haf : af = ⟨ansOut.map repairChars, (flattenSplit codeOut).map repairChars,
      fRows, wRows, pRows, tf, tw, tp⟩ := by
    cases h; rfl
  exact ⟨eA, eC, eF, eW, eP, ansOut, codeOut, fRows, wRows, pRows, tf, tw, tp,
    rfl, rfl, rfl, rfl, rfl, hm, h2, h3.1, h3.2, hsf, hsw, hsp, haf⟩

/-- C2 (amended): on every successful extraction the category and code
lists have equal length, and the frequency, weighted-frequency and percent
lists have equal length — but the two groups are validated independently
and their lengths are never compared to each other. -/
theorem c2_group_lengths (unit : List Element) (af : AnswerFields)
    (h : get_answer_fields unit = .ok af) :
    af.answer_categories.length = af.code.length ∧
    af.frequency.length = af.weighted_frequency.length ∧
    af.weighted_frequency.length = af.percent.length := by
  obtain ⟨hA, hC, hF, hW, hP, ansOut, codeOut, fRows, wRows, pRows, tf, tw, tp,
    _, _, _, _, _, hm, h2, h3a, h3b, hsf, hsw, hsp, haf⟩ := gaf_ok_shape h
  subst haf
  have hCnl : ∀ s : String,
      Mark.str s ∈ flattenRaw (insertCB (collectCol "Code" hC.top (rightAlign hC) 0 unit)) →
      '\n' ∉ s.data := by
    intro s hs
    obtain ⟨ls, hls, hmem⟩ := flattenRaw_str_mem hs
    rcases insertCB_mem hls with hcb | hin
    · exact absurd hcb (by simp)
    · rcases collectCol_mem "Code" hC.top (rightAlign hC) 0 unit
        (Raw.lines ls) hin with hpb | ⟨e, he⟩
      · exact absurd hpb (by simp)
      · injection he with he2
        exact splitAndStrip_no_nl (he2 ▸ hmem)
  have hnl : ∀ s ∈ codeOut, '\n' ∉ s.data :=
    mergeAC_code_nl _ _ [] [] ansOut codeOut hCnl (by simp) hm
  have l1 := splitLast_len _ _ _ hsf
  have l2 := splitLast_len _ _ _ hsw
  have l3 := splitLast_len _ _ _ hsp
  simp only [List.length_map] at l1 l2
  refine ⟨?_, ?_, ?_⟩
  · simp [List.length_map, flattenSplit_len codeOut hnl, h2]
  · simp only []
    omega
  · simp only []
    omega

/-- C2 witness: the amended alignment facts at the regular unit. -/
theorem c2_group_lengths_witness :
    baseAF.answer_categories.length = baseAF.code.length ∧
    baseAF.frequency.length = baseAF.weighted_frequency.length ∧
    baseAF.weighted_frequency.length = baseAF.percent.length :=
  c2_group_lengths baseUnit baseAF rfl

/-- C2 counterexample: `unit2` extracts without error although its
category/code lists have two rows while its three numeric lists have
three — the five lists are not all of equal length. -/
theorem c2_cross_group_counterexample :
    (get_answer_fields unit2).toOption.map
        (fun af => (af.answer_categories.length, af.code.length,
                    af.frequency.length, af.weighted_frequency.length,
                    af.percent.length)) =
      some (2, 2, 3, 3, 3) := by
  rfl

/-- The ligature repair leaves no ligature character behind. -/
theorem repairChars_count (s : String) : (repairChars s).data.count 'ﬁ' = 0 :=
  replaceCharStr_count 'ﬁ' ['f', 'i'] (by decide) s.data

/-- Characters of a space-join are spaces or come from the parts. -/
theorem joinSpace_chars :
    ∀ (l : List String) (c : Char), c ∈ (joinSpace l).data →
      c = ' ' ∨ ∃ t ∈ l, c ∈ t.data := by
  intro l
  induction l with
  | nil => intro c hc; simp [joinSpace] at hc
  | cons s rest ih =>
    intro c hc
    cases rest with
    | nil =>
      rw [joinSpace] at hc
      exact Or.inr ⟨s, by simp, hc⟩
    | cons s2 rest2 =>
      rw [joinSpace] at hc
      rw [String.data_append] at hc
      rcases List.mem_append.mp hc with h1 | h2
      · rw [String.data_append] at h1
        rcases List.mem_append.mp h1 with ha | hb
        · exact Or.inr ⟨s, by simp, ha⟩
        · left
          simpa using hb
      · rcases ih c h2 with h | ⟨t, ht, hct⟩
        · exact Or.inl h
        · exact Or.inr ⟨t, by simp [ht], hct⟩

/-- The repaired-join-split-rejoin of the free-text extractor never
contains the ligature character. -/
theorem joined_repair_count (X : String) :
    (joinSpace (splitAndStrip (repairChars X))).data.count 'ﬁ' = 0 := by
  rw [List.count_eq_zero]
  intro hmem
  rcases joinSpace_chars _ _ hmem with hsp | ⟨t, ht, hct⟩
  · exact absurd hsp (by decide)
  · have hin := splitAndStrip_chars_sub ht _ hct
    have hz := repairChars_count X
    rw [List.count_eq_zero] at hz
    exact hz hin

/-- Every successful bounded free-text extraction is ligature-free. -/
theorem gq_ok_count {u : List Element} {a b s : String}
    (h : get_question_thru_source u a b = .ok s) : s.data.count 'ﬁ' = 0 := by
  rw [get_question_thru_source] at h
  cases hte : get_elem_by_text u a with
  | none => rw [hte] at h; exact Except.noConfusion h
  | some te =>
  cases hbe : get_elem_by_text u b with
  | none => rw [hte, hbe] at h; exact Except.noConfusion h
  | some be =>
  rw [hte, hbe] at h
  cases h
  exact joined_repair_count _

/-- C8 (amended): on every successful extraction the ligature character is
absent from the question-name, concept, question-text, universe, note and
source fields and from every answer-category and code entry — the repair
table is applied to these fields, but not to the variable-name, length or
position fields. -/
theorem c8_ligature_repair (u : List Element) (r : VariableRecord)
    (h : extractUnit u = .ok r) :
    r.question_name.data.count 'ﬁ' = 0 ∧
    r.concept.data.count 'ﬁ' = 0 ∧
    r.question_text.data.count 'ﬁ' = 0 ∧
    r.«universe».data.count 'ﬁ' = 0 ∧
    r.note.data.count 'ﬁ' = 0 ∧
    (∀ s, r.source = some s → s.data.count 'ﬁ' = 0) ∧
    (∀ af, r.answers = some af →
      (∀ s ∈ af.answer_categories, s.data.count 'ﬁ' = 0) ∧
      (∀ s ∈ af.code, s.data.count 'ﬁ' = 0)) := by
  rw [extractUnit] at h
  obtain ⟨vn, hvn, h⟩ := exceptBind_ok h
  obtain ⟨len, hlen, h⟩ := exceptBind_ok h
  obtain ⟨pos, hpos, h⟩ := exceptBind_ok h
  obtain ⟨qn, hqn, h⟩ := exceptBind_ok h
  obtain ⟨con, hcon, h⟩ := exceptBind_ok h
  obtain ⟨qt, hqt, h⟩ := exceptBind_ok h
  obtain ⟨uni, huni, h⟩ := exceptBind_ok h
  obtain ⟨nt, hnt, h⟩ := exceptBind_ok h
  by_cases hm : vn ∈ NON_QUESTION_VARS
  · rw [if_pos hm] at h
    have hr : r = ⟨vn, len, pos, qn, con, qt, uni, nt, none, none⟩ := by
      simpa [pure, Except.pure] using h.symm
    subst hr
    refine ⟨gq_ok_count hqn, gq_ok_count hcon, gq_ok_count hqt,
      gq_ok_count huni, gq_ok_count hnt, ?_, ?_⟩
    · intro s hs; simp at hs
    · intro af haf; simp at haf
  · rw [if_neg hm] at h
    obtain ⟨src, hsrc, h⟩ := exceptBind_ok h
    obtain ⟨af, haf, h⟩ := exceptBind_ok h
    have hr : r = ⟨vn, len, pos, qn, con, qt, uni, nt, some src, some af⟩ := by
      simpa [pure, Except.pure] using h.symm
    subst hr
    refine ⟨gq_ok_count hqn, gq_ok_count hcon, gq_ok_count hqt,
      gq_ok_count huni, gq_ok_count hnt, ?_, ?_⟩
    · intro s hs
      simp only [Option.some.injEq] at hs
      cases hs
      exact gq_ok_count hsrc
    · intro af2 haf2
      simp only [Option.some.injEq] at haf2
      cases haf2
      obtain ⟨hA, hC, hF, hW, hP, ansOut, codeOut, fRows, wRows, pRows, tf, tw, tp,
        _, _, _, _, _, _, _, _, _, _, _, _, hafeq⟩ := gaf_ok_shape haf
      subst hafeq
      constructor
      · intro s hs
        obtain ⟨x, hx, rfl⟩ := List.mem_map.mp hs
        exact repairChars_count x
      · intro s hs
        obtain ⟨x, hx, rfl⟩ := List.mem_map.mp hs
        exact repairChars_count x

/-- C8 witness: the amended repair facts at the ligature unit. -/
theorem c8_ligature_repair_witness :
    unit8Record.question_name.data.count 'ﬁ' = 0 ∧
    unit8Record.note.data.count 'ﬁ' = 0 := by
  have h := c8_ligature_repair unit8 unit8Record rfl
  exact ⟨h.1, h.2.2.2.2.1⟩

/-- C8 counterexample: `unit8` extracts without error, its source text was
repaired, yet the ligature character survives in the serialized record's
`variable_name` field — the substitution is not applied to every output
text field. -/
theorem c8_variable_name_counterexample :
    extractUnit unit8 = .ok unit8Record ∧
    unit8Record.variable_name.data.count 'ﬁ' = 1 ∧
    unit8Record.source.map (fun s => s.data.count 'ﬁ') = some 0 := by
  exact ⟨rfl, by decide, by decide⟩
